import Mathlib

/- Verification of the metrics computation engine: a shallow embedding of the
   analyzers in analyze_metrics.py, generate_funnel.py and generate_dashboard.py.

   Modelling conventions:
   - pandas tables are lists of row structures, in row order;
   - timestamps are normalized to calendar days, encoded as `Int` (days since
     epoch; day 0 is a Thursday, matching the Unix epoch used by pandas);
   - Python float arithmetic is idealized as exact arithmetic over `Rat`
     (for plain ratios) and `Real` (for `math.sqrt` in the phi coefficient);
   - `merge(..., how := left)` followed by dropping unmatched rows becomes a
     `filterMap` over a first-match lookup (join keys are unique per the schema);
   - a Python statement that raises is modelled by an `Option`-valued result
     (`none` = the call raises). -/

namespace Metrics

/-- Row of the Users table: unique user_id and the signup date as a day number. -/
structure UserRow where
  user_id : Nat
  signup_date : Int
deriving DecidableEq, Repr

/-- Row of the Sessions table. start_day is the calendar date of start_time
    (sessions.start_time.dt.date / .dt.normalize() both yield this day). -/
structure SessionRow where
  session_id : Nat
  user_id : Nat
  start_day : Int
  end_day : Int
deriving DecidableEq, Repr

/-- Row of the FeatureUsageEvents table. -/
structure UsageRow where
  session_id : Nat
  feature_name : String
  usage_day : Int
deriving DecidableEq, Repr

/-- Number of distinct values of a list: pandas Series.nunique(). -/
def nunique {α : Type} [DecidableEq α] (l : List α) : Nat :=
  l.dedup.length

/-- Weekly period of a day under pandas to_period with the W-MON anchor
    (weeks run Tuesday..Monday; day 0, a Thursday, falls in week 0). -/
def weekOf (d : Int) : Int :=
  (d + 2).fdiv 7

/-- First-match lookup of a key in an association list: the row a left merge on
    a unique key joins to (None when the key is absent, i.e. the merge leaves NaN). -/
def lookupFirst {β : Type} (key : Nat) : List (Nat × β) → Option β
  | [] => none
  | p :: rest => if p.1 = key then some p.2 else lookupFirst key rest

/-- Group (key, user) pairs by key — sorted ascending, as pandas groupby sorts
    group keys — and count distinct users per key. -/
def groupNunique (pairs : List (Int × Nat)) : List (Int × Nat) :=
  (List.insertionSort (fun a b => a ≤ b) ((pairs.map Prod.fst).dedup)).map
    (fun k => (k, nunique ((pairs.filter (fun p => p.1 == k)).map Prod.snd)))

/-- Scalar summary of a per-period activity series, mirroring the dau_summary /
    wau_summary dictionaries of compute_activity_metrics. -/
structure SeriesSummary where
  periods_observed : Nat
  average : Rat
  median : Rat
  max : Nat
  min : Nat
deriving DecidableEq, Repr

/-- Median of the counts, as pandas Series.median(): midpoint of the sorted
    list, averaging the two middle elements for even length. -/
def medianOf (l : List Nat) : Rat :=
  let s := List.insertionSort (fun a b => a ≤ b) l
  let n := s.length
  if n % 2 = 1 then (s.getD (n / 2) 0 : Rat)
  else ((s.getD (n / 2 - 1) 0 : Rat) + (s.getD (n / 2) 0 : Rat)) / 2

/-- Summary statistics of the series values. On an empty series pandas mean()
    and median() are NaN (float(NaN) does not raise) but int(series.max())
    is int(NaN), which raises ValueError: the empty case is therefore `none`. -/
def summarize : List Nat → Option SeriesSummary
  | [] => none
  | c :: cs =>
    some
      { periods_observed := (c :: cs).length
        average := ((c :: cs).sum : Rat) / ((c :: cs).length : Rat)
        median := medianOf (c :: cs)
        max := cs.foldl Nat.max c
        min := cs.foldl Nat.min c }

/-- compute_activity_metrics: DAU and WAU series (distinct users per day and
    per W-MON week) plus their summaries; `none` models the ValueError raised
    while building the summaries of an empty series. -/
def compute_activity_metrics (sessions : List SessionRow) :
    Option (List (Int × Nat) × List (Int × Nat) × SeriesSummary × SeriesSummary) :=
  let dau := groupNunique (sessions.map fun s => (s.start_day, s.user_id))
  let wau := groupNunique (sessions.map fun s => (weekOf s.start_day, s.user_id))
  match summarize (dau.map Prod.snd), summarize (wau.map Prod.snd) with
  | some ds, some ws => some (dau, wau, ds, ws)
  | _, _ => none

/-- Named funnel stage with its absolute user count (users are floats after
    astype(float); counts idealized as rationals). -/
structure FunnelStep where
  stage : String
  users : Rat
deriving DecidableEq, Repr

/-- Columns of the funnel dataframe built by build_funnel_dataframe. -/
structure FunnelDF where
  stage : List String
  users : List Rat
  overall_conversion : List Rat
  step_conversion : List Rat
  step_drop : List Rat
deriving DecidableEq, Repr

/-- step_conversion column: users / users.shift(1), with the first entry then
    assigned 1.0 (df.loc for row 0). -/
def stepConversionList (users : List Rat) : List Rat :=
  match users with
  | [] => []
  | _ :: rest => 1 :: List.zipWith (fun a b => a / b) rest users

/-- build_funnel_dataframe: per-stage overall conversion (relative to stage 0),
    step conversion (relative to the previous stage, 1.0 at stage 0) and
    step drop (1 - step conversion). -/
def build_funnel_dataframe (steps : List FunnelStep) : FunnelDF :=
  let users := steps.map fun st => st.users
  { stage := steps.map fun st => st.stage
    users := users
    overall_conversion := users.map fun u => u / users.headD 0
    step_conversion := stepConversionList users
    step_drop := (stepConversionList users).map fun c => 1 - c }

/-- POSITIVE_TERMS of generate_dashboard.py, as lowercase character lists. -/
def POSITIVE_TERMS : List (List Char) :=
  ["love".data, "great".data, "fantastic".data, "game changer".data,
    "intuitive".data, "helped".data, "flawless".data, "super".data, "thanks".data]

/-- NEGATIVE_TERMS of generate_dashboard.py. -/
def NEGATIVE_TERMS : List (List Char) :=
  ["slow".data, "crash".data, "noisy".data, "issue".data, "problem".data,
    "confusing".data, "friction".data, "hard".data, "broken".data]

/-- classify_feedback: missing rating defaults to 0 (row.get with default 0)
    and a missing comments field defaults to the empty string; rating ≥ 4 adds
    one, rating ≤ 2 subtracts one; each term of the fixed lists that occurs as
    a substring of the lower-cased comment adds (positive list) or subtracts
    (negative list) one; the label is decided by the sign of the score. -/
def classify_feedback (rating : Option Int) (comments : Option (List Char)) : String :=
  let rating := rating.getD 0
  let comment := (comments.getD []).map Char.toLower
  let score : Int :=
    (if 4 ≤ rating then 1 else if rating ≤ 2 then -1 else 0)
      + (POSITIVE_TERMS.countP fun term => decide (List.IsInfix term comment))
      - (NEGATIVE_TERMS.countP fun term => decide (List.IsInfix term comment))
  if 0 < score then "Positive" else if score < 0 then "Negative" else "Neutral"

open Classical in
/-- phi_coefficient: the 2x2 contingency correlation. math.sqrt is idealized as
    Real.sqrt (the engine only reaches non-negative radicands, where the two
    agree); the zero-denominator guard returns 0.0. -/
noncomputable def phi_coefficient (tp fn fp tn : Int) : Real :=
  let denominator := Real.sqrt (((tp + fp) * (tp + fn) * (tn + fp) * (tn + fn) : Int) : Real)
  if denominator = 0 then 0
  else ((tp : Real) * (tn : Real) - (fp : Real) * (fn : Real)) / denominator

/-- session_users = sessions[[session_id, user_id]], the join target of the
    usage-event merges. -/
def session_users (sessions : List SessionRow) : List (Nat × Nat) :=
  sessions.map fun s => (s.session_id, s.user_id)

/-- usage_with_users: each usage event joined to its session's user_id; events
    whose session_id matches no session are dropped (merge how=left + dropna).
    Rows are (feature_name, user_id). -/
def usage_with_users (sessions : List SessionRow) (usage : List UsageRow) :
    List (String × Nat) :=
  usage.filterMap fun e =>
    (lookupFirst e.session_id (session_users sessions)).map fun uid => (e.feature_name, uid)

/-- active_user_count = sessions[user_id].nunique(). -/
def active_user_count (sessions : List SessionRow) : Nat :=
  nunique (sessions.map fun s => s.user_id)

/-- Per-feature adoption row of compute_feature_adoption. -/
structure AdoptionRow where
  feature_name : String
  unique_users : Nat
  adoption_rate : Rat
deriving DecidableEq, Repr

/-- Full result of compute_feature_adoption. -/
structure AdoptionResult where
  adoption_table : List AdoptionRow
  overall_rate : Rat
  active_user_count : Nat
deriving DecidableEq, Repr

/-- feature_user_counts: deduplicate (user, feature) usage pairs, count the
    distinct users per feature (groupby iterates features in ascending order)
    and sort the counts descending. -/
def feature_user_counts (sessions : List SessionRow) (usage : List UsageRow) :
    List (String × Nat) :=
  let pairs := (usage_with_users sessions usage).dedup
  let features := List.insertionSort (fun a b => a ≤ b) ((pairs.map Prod.fst).dedup)
  List.insertionSort (fun a b => b.2 ≤ a.2)
    (features.map fun f =>
      (f, nunique ((pairs.filter fun p => p.1 == f).map Prod.snd)))

/-- overall_adopters = usage_with_users[user_id].nunique(). -/
def overall_adopters (sessions : List SessionRow) (usage : List UsageRow) : Nat :=
  nunique ((usage_with_users sessions usage).map Prod.snd)

/-- compute_feature_adoption: per-feature unique adopter counts with their
    adoption rate (the per-feature division is written unguarded, exactly as in
    the source) and the guarded overall rate. -/
def compute_feature_adoption (sessions : List SessionRow) (usage : List UsageRow) :
    AdoptionResult :=
  let active := active_user_count sessions
  { adoption_table :=
      (feature_user_counts sessions usage).map fun fc =>
        { feature_name := fc.1
          unique_users := fc.2
          adoption_rate := (fc.2 : Rat) / (active : Rat) }
    overall_rate := if active = 0 then 0 else (overall_adopters sessions usage : Rat) / (active : Rat)
    active_user_count := active }

/-- Retention row for one probe day of compute_retention. -/
structure RetentionRow where
  day : Nat
  retained_users : Nat
  retention_rate : Rat
deriving DecidableEq, Repr

/-- users[[user_id, signup_date]], the join target of the session merge. -/
def users_signup (users : List UserRow) : List (Nat × Int) :=
  users.map fun u => (u.user_id, u.signup_date)

/-- Sessions joined to their user's signup_date, reduced to
    (user_id, day_diff) with day_diff = session_date - signup_date, keeping
    only non-negative day differences. Sessions of users absent from the Users
    table have NaN day_diff and are likewise dropped by the >= 0 filter. -/
def retention_day_pairs (users : List UserRow) (sessions : List SessionRow) :
    List (Nat × Int) :=
  (sessions.filterMap fun s =>
      (lookupFirst s.user_id (users_signup users)).map fun sd => (s.user_id, s.start_day - sd))
    |>.filter fun p => 0 ≤ p.2

/-- Users appearing in the groupby over the filtered sessions (the index of the
    day_diffs series): users with at least one non-negative day offset. -/
def cohort_users (users : List UserRow) (sessions : List SessionRow) : List Nat :=
  ((retention_day_pairs users sessions).map Prod.fst).dedup

/-- day_diffs group of one user: the set of its distinct non-negative offsets. -/
def day_diffs_of (users : List UserRow) (sessions : List SessionRow) (u : Nat) : List Int :=
  (((retention_day_pairs users sessions).filter fun p => p.1 == u).map Prod.snd).dedup

/-- The fixed probe offsets of compute_retention. -/
def retention_days : List Nat := [1, 7, 30]

/-- compute_retention: for each probe day, the number of cohort users whose
    offset set contains that exact day, and the guarded retention rate; also
    returns base_users, the cohort size. -/
def compute_retention (users : List UserRow) (sessions : List SessionRow) :
    List RetentionRow × Nat :=
  let base_users := (cohort_users users sessions).length
  (retention_days.map fun day =>
      let retained :=
        ((cohort_users users sessions).filter fun u =>
            decide ((Int.ofNat day) ∈ day_diffs_of users sessions u)).length
      { day := day
        retained_users := retained
        retention_rate := if base_users = 0 then 0 else (retained : Rat) / (base_users : Rat) },
    base_users)

/-- session_counts for one user: number of session rows of that user. -/
def session_count (sessions : List SessionRow) (u : Nat) : Nat :=
  (sessions.filter fun s => s.user_id == u).length

/-- repeat_series.get(user, 0): the binary repeat label of a user, 0 for users
    absent from the Users index (the series is reindexed on users.user_id with
    fill value 0, so only listed users can carry label 1). -/
def repeat_label (users : List UserRow) (sessions : List SessionRow) (u : Nat) : Nat :=
  if u ∈ users.map (fun r => r.user_id) ∧ 2 ≤ session_count sessions u then 1 else 0

/-- user_count = repeat_series.shape[0], the number of Users rows. -/
def user_count (users : List UserRow) : Nat :=
  users.length

/-- repeat_total = repeat_series.sum(): number of Users rows whose user has at
    least two sessions. -/
def repeat_total (users : List UserRow) (sessions : List SessionRow) : Nat :=
  (users.filter fun r => decide (2 ≤ session_count sessions r.user_id)).length

/-- feature_users of compute_feature_repeat_correlation: usage events joined to
    user ids (unmatched rows dropped) and deduplicated on (user, feature). -/
def correlation_pairs (sessions : List SessionRow) (usage : List UsageRow) :
    List (String × Nat) :=
  (usage_with_users sessions usage).dedup

/-- users_used of one feature group: the set of user ids that used the feature. -/
def users_used_of (sessions : List SessionRow) (usage : List UsageRow) (f : String) :
    List Nat :=
  (((correlation_pairs sessions usage).filter fun p => p.1 == f).map Prod.snd).dedup

/-- Contingency counts (tp, fp, fn, tn) computed in the per-feature loop of
    compute_feature_repeat_correlation. Python ints are modelled as Int: the
    subtractions are not clamped. -/
def contingency (users : List UserRow) (sessions : List SessionRow)
    (usage : List UsageRow) (f : String) : Int × Int × Int × Int :=
  let users_used := users_used_of sessions usage f
  let used_count := users_used.length
  let tp : Int := ((users_used.map (repeat_label users sessions)).sum : Nat)
  let fp : Int := (used_count : Int) - tp
  let fn : Int := (repeat_total users sessions : Int) - tp
  let tn : Int := (user_count users : Int) - (tp + fp + fn)
  (tp, fp, fn, tn)

/-- Output row of compute_feature_repeat_correlation. -/
structure CorrelationRow where
  feature_name : String
  users_used : Nat
  repeat_rate_used : Rat
  repeat_rate_not_used : Rat
  repeat_rate_lift : Rat
  phi : Real

/-- Loop body of compute_feature_repeat_correlation for one feature. -/
noncomputable def correlation_row (users : List UserRow) (sessions : List SessionRow)
    (usage : List UsageRow) (f : String) : CorrelationRow :=
  let used_count := (users_used_of sessions usage f).length
  let c := contingency users sessions usage f
  let tp := c.1
  let fp := c.2.1
  let fn := c.2.2.1
  let tn := c.2.2.2
  let not_used_count : Int := (user_count users : Int) - (used_count : Int)
  let repeat_rate_used : Rat := if used_count = 0 then 0 else (tp : Rat) / (used_count : Rat)
  let repeat_rate_not_used : Rat :=
    if not_used_count = 0 then 0
    else ((repeat_total users sessions : Int) - tp : Rat) / (not_used_count : Rat)
  { feature_name := f
    users_used := used_count
    repeat_rate_used := repeat_rate_used
    repeat_rate_not_used := repeat_rate_not_used
    repeat_rate_lift := repeat_rate_used - repeat_rate_not_used
    phi := phi_coefficient tp fn fp tn }

open Classical in
/-- compute_feature_repeat_correlation: one row per feature (groupby iterates
    features in ascending order), then stats sorted by phi descending (Python
    list.sort is stable, as is mergeSort). -/
noncomputable def compute_feature_repeat_correlation (users : List UserRow)
    (sessions : List SessionRow) (usage : List UsageRow) : List CorrelationRow :=
  let features :=
    List.insertionSort (fun a b => a ≤ b) (((correlation_pairs sessions usage).map Prod.fst).dedup)
  List.insertionSort (fun a b => b.phi ≤ a.phi)
    (features.map (correlation_row users sessions usage))

/-- Number of occurrences of term as a substring of s: one per starting
    position at which term matches. -/
def occurrences (term s : List Char) : Nat :=
  (List.range (s.length + 1)).countP fun i => term.isPrefixOf (s.drop i)

/-- Score of a feedback row as literally worded by the claim: the rating
    contribution plus one per OCCURRENCE of a positive term as a substring of
    the lower-cased comment, minus one per occurrence of a negative term. -/
def occurrence_score (rating : Int) (comment : List Char) : Int :=
  let c := comment.map Char.toLower
  (if 4 ≤ rating then 1 else if rating ≤ 2 then -1 else 0)
    + ((POSITIVE_TERMS.map fun t => (occurrences t c : Int)).sum)
    - ((NEGATIVE_TERMS.map fun t => (occurrences t c : Int)).sum)

/-- Score of a feedback row under the amended wording: the rating contribution
    plus one per positive term PRESENT at least once as a substring of the
    lower-cased comment, minus one per negative term present. -/
def presence_score (rating : Int) (comment : List Char) : Int :=
  let c := comment.map Char.toLower
  (if 4 ≤ rating then 1 else if rating ≤ 2 then -1 else 0)
    + ((POSITIVE_TERMS.filter fun t => decide (List.IsInfix t c)).length : Int)
    - ((NEGATIVE_TERMS.filter fun t => decide (List.IsInfix t c)).length : Int)

/-- C2: compute_activity_metrics on the empty Session table does not return a
    result structure: the summaries convert the NaN max/min of an empty series
    with int(), which raises ValueError (modelled as none). This contradicts
    the claim that the empty table yields empty series and summaries without
    raising. -/
theorem c2_empty_activity_raises : compute_activity_metrics [] = none := rfl

/-- C9: the four analyzers are deterministic — on unchanged input tables two
    runs produce identical result structures (each analyzer is a pure function
    of the tables; the sorts involved are stable merge sorts, fixed maps). -/
theorem c9_analyzers_deterministic (users₁ users₂ : List UserRow)
    (sessions₁ sessions₂ : List SessionRow) (usage₁ usage₂ : List UsageRow)
    (hu : users₁ = users₂) (hs : sessions₁ = sessions₂) (hf : usage₁ = usage₂) :
    compute_activity_metrics sessions₁ = compute_activity_metrics sessions₂
    ∧ compute_feature_adoption sessions₁ usage₁ = compute_feature_adoption sessions₂ usage₂
    ∧ compute_retention users₁ sessions₁ = compute_retention users₂ sessions₂
    ∧ compute_feature_repeat_correlation users₁ sessions₁ usage₁
        = compute_feature_repeat_correlation users₂ sessions₂ usage₂ := by
  subst hu hs hf
  exact ⟨rfl, rfl, rfl, rfl⟩

/-- Witness for C9 at a concrete input. -/
theorem c9_analyzers_deterministic_witness :
    compute_activity_metrics [⟨1, 10, 0, 0⟩] = compute_activity_metrics [⟨1, 10, 0, 0⟩]
    ∧ compute_feature_adoption [⟨1, 10, 0, 0⟩] [⟨1, "search", 0⟩]
        = compute_feature_adoption [⟨1, 10, 0, 0⟩] [⟨1, "search", 0⟩]
    ∧ compute_retention [⟨10, 0⟩] [⟨1, 10, 0, 0⟩]
        = compute_retention [⟨10, 0⟩] [⟨1, 10, 0, 0⟩]
    ∧ compute_feature_repeat_correlation [⟨10, 0⟩] [⟨1, 10, 0, 0⟩] [⟨1, "search", 0⟩]
        = compute_feature_repeat_correlation [⟨10, 0⟩] [⟨1, 10, 0, 0⟩] [⟨1, "search", 0⟩] :=
  c9_analyzers_deterministic [⟨10, 0⟩] [⟨10, 0⟩] [⟨1, 10, 0, 0⟩] [⟨1, 10, 0, 0⟩]
    [⟨1, "search", 0⟩] [⟨1, "search", 0⟩] rfl rfl rfl

/-- C3 counterexample: on a comment in which a positive term occurs twice, the
    occurrence-counted score of the claim is positive (so the claim predicts
    the label Positive), yet classify_feedback returns Neutral: the code adds
    one per term present, not one per occurrence. -/
theorem c3_occurrence_counterexample :
    occurrence_score 1 "love love".data = 1
    ∧ classify_feedback (some 1) (some "love love".data) = "Neutral" := by
  constructor
  · decide
  · decide

/-- C3 (amended): classify_feedback scores the rating contribution plus one per
    positive-list term present as a substring of the lower-cased comment (each
    term counted once, however often it occurs), minus one per negative-list
    term present, and labels by the sign of the score; consequently a comment
    containing positive terms and no negative terms with rating 5 classifies
    Positive, one with negative terms and no positive terms with rating 1
    classifies Negative, and an empty comment with rating 3 classifies Neutral. -/
theorem c3_presence_scoring (rating : Option Int) (comments : Option (List Char)) :
    (classify_feedback rating comments =
      (if 0 < presence_score (rating.getD 0) (comments.getD []) then "Positive"
        else if presence_score (rating.getD 0) (comments.getD []) < 0 then "Negative"
        else "Neutral"))
    ∧ (∀ c : List Char,
        (∃ t ∈ POSITIVE_TERMS, List.IsInfix t (c.map Char.toLower)) →
        (∀ t ∈ NEGATIVE_TERMS, ¬ List.IsInfix t (c.map Char.toLower)) →
        classify_feedback (some 5) (some c) = "Positive")
    ∧ (∀ c : List Char,
        (∃ t ∈ NEGATIVE_TERMS, List.IsInfix t (c.map Char.toLower)) →
        (∀ t ∈ POSITIVE_TERMS, ¬ List.IsInfix t (c.map Char.toLower)) →
        classify_feedback (some 1) (some c) = "Negative")
    ∧ classify_feedback (some 3) (some []) = "Neutral" := by
  have hmain : ∀ (r : Option Int) (cs : Option (List Char)),
      classify_feedback r cs =
        (if 0 < presence_score (r.getD 0) (cs.getD []) then "Positive"
          else if presence_score (r.getD 0) (cs.getD []) < 0 then "Negative"
          else "Neutral") := by
    intro r cs
    simp only [classify_feedback, presence_score, List.countP_eq_length_filter]
  refine ⟨hmain rating comments, ?_, ?_, by decide⟩
  · intro c hpos hneg
    rw [hmain (some 5) (some c)]
    have hp : 0 < (POSITIVE_TERMS.filter
        fun t => decide (List.IsInfix t (c.map Char.toLower))).length := by
      obtain ⟨t, ht, hinf⟩ := hpos
      have : t ∈ POSITIVE_TERMS.filter
          fun t => decide (List.IsInfix t (c.map Char.toLower)) :=
        List.mem_filter.mpr ⟨ht, by simpa using hinf⟩
      exact List.length_pos.mpr (List.ne_nil_of_mem this)
    have hn : (NEGATIVE_TERMS.filter
        fun t => decide (List.IsInfix t (c.map Char.toLower))).length = 0 := by
      rw [List.length_eq_zero, List.filter_eq_nil_iff]
      intro t ht
      simpa using hneg t ht
    have hscore : 0 < presence_score ((some (5 : Int)).getD 0) ((some c).getD []) := by
      simp only [presence_score, Option.getD_some]
      rw [hn]
      simp
      omega
    rw [if_pos hscore]
  · intro c hneg hpos
    rw [hmain (some 1) (some c)]
    have hp : (POSITIVE_TERMS.filter
        fun t => decide (List.IsInfix t (c.map Char.toLower))).length = 0 := by
      rw [List.length_eq_zero, List.filter_eq_nil_iff]
      intro t ht
      simpa using hpos t ht
    have hn : 0 < (NEGATIVE_TERMS.filter
        fun t => decide (List.IsInfix t (c.map Char.toLower))).length := by
      obtain ⟨t, ht, hinf⟩ := hneg
      have : t ∈ NEGATIVE_TERMS.filter
          fun t => decide (List.IsInfix t (c.map Char.toLower)) :=
        List.mem_filter.mpr ⟨ht, by simpa using hinf⟩
      exact List.length_pos.mpr (List.ne_nil_of_mem this)
    have hscore : presence_score ((some (1 : Int)).getD 0) ((some c).getD []) < 0 := by
      simp only [presence_score, Option.getD_some]
      rw [hp]
      simp
      omega
    rw [if_neg (by omega), if_pos hscore]

/-- Witness for C3 (amended) at concrete feedback rows. -/
theorem c3_presence_scoring_witness :
    (classify_feedback (some 2) (some "great".data) =
      (if 0 < presence_score ((some (2 : Int)).getD 0) ((some "great".data).getD []) then "Positive"
        else if presence_score ((some (2 : Int)).getD 0) ((some "great".data).getD []) < 0 then "Negative"
        else "Neutral"))
    ∧ classify_feedback (some 5) (some "i love it".data) = "Positive"
    ∧ classify_feedback (some 1) (some "so slow".data) = "Negative"
    ∧ classify_feedback (some 3) (some []) = "Neutral" :=
  ⟨(c3_presence_scoring (some 2) (some "great".data)).1,
    (c3_presence_scoring (some 5) (some "i love it".data)).2.1 "i love it".data
      (by decide) (by decide),
    (c3_presence_scoring (some 1) (some "so slow".data)).2.2.1 "so slow".data
      (by decide) (by decide),
    (c3_presence_scoring (some 3) (some [])).2.2.2⟩

/-- C10: a feedback row with an absent rating field is scored with the default
    rating 0, which takes the rating ≤ 2 branch and subtracts one, so with a
    comment containing no positive and no negative terms the label is Negative,
    and for every rating/comment combination (including a missing comment) the
    function returns one of exactly the labels Positive, Negative, Neutral. -/
theorem c10_default_rating (rating : Option Int) (comments : Option (List Char)) :
    (classify_feedback rating comments = "Positive"
      ∨ classify_feedback rating comments = "Negative"
      ∨ classify_feedback rating comments = "Neutral")
    ∧ ((∀ t ∈ POSITIVE_TERMS, ¬ List.IsInfix t ((comments.getD []).map Char.toLower)) →
        (∀ t ∈ NEGATIVE_TERMS, ¬ List.IsInfix t ((comments.getD []).map Char.toLower)) →
        classify_feedback none comments = "Negative") := by
  constructor
  · unfold classify_feedback
    set s : Int := _ with hs
    by_cases h1 : 0 < s
    · left; rw [if_pos h1]
    · by_cases h2 : s < 0
      · right; left; rw [if_neg h1, if_pos h2]
      · right; right; rw [if_neg h1, if_neg h2]
  · intro hpos hneg
    have hp : (POSITIVE_TERMS.countP
        fun t => decide (List.IsInfix t ((comments.getD []).map Char.toLower))) = 0 := by
      rw [List.countP_eq_zero]
      intro t ht
      simpa using hpos t ht
    have hn : (NEGATIVE_TERMS.countP
        fun t => decide (List.IsInfix t ((comments.getD []).map Char.toLower))) = 0 := by
      rw [List.countP_eq_zero]
      intro t ht
      simpa using hneg t ht
    simp only [classify_feedback, Option.getD_none, hp, hn]
    norm_num

/-- Witness for C10: a row with no rating and a term-free comment is Negative. -/
theorem c10_default_rating_witness :
    (classify_feedback (some 4) (some "ok".data) = "Positive"
      ∨ classify_feedback (some 4) (some "ok".data) = "Negative"
      ∨ classify_feedback (some 4) (some "ok".data) = "Neutral")
    ∧ classify_feedback none (some "meh".data) = "Negative" :=
  ⟨(c10_default_rating (some 4) (some "ok".data)).1,
    (c10_default_rating none (some "meh".data)).2 (by decide) (by decide)⟩

/-- The 2x2 contingency bound behind phi ∈ [-1, 1]: the squared numerator never
    exceeds the product of the four margins. -/
theorem phi_sq_bound (a b c d : Real) (ha : 0 ≤ a) (hb : 0 ≤ b) (hc : 0 ≤ c) (hd : 0 ≤ d) :
    (a * d - c * b) ^ 2 ≤ (a + c) * (a + b) * (d + c) * (d + b) := by
  nlinarith [mul_nonneg (mul_nonneg ha hb) (mul_nonneg hc hd),
    mul_nonneg (mul_nonneg ha ha) (mul_nonneg hc hd),
    mul_nonneg (mul_nonneg ha hb) (mul_nonneg hd hd),
    mul_nonneg (mul_nonneg ha ha) (mul_nonneg hb hd),
    mul_nonneg (mul_nonneg ha ha) (mul_nonneg hb hc),
    mul_nonneg (mul_nonneg ha hb) (mul_nonneg hb hd),
    mul_nonneg (mul_nonneg ha hb) (mul_nonneg hb hc),
    mul_nonneg (mul_nonneg ha hc) (mul_nonneg hd hd),
    mul_nonneg (mul_nonneg ha hc) (mul_nonneg hc hd),
    mul_nonneg (mul_nonneg hb hc) (mul_nonneg hd hd),
    mul_nonneg (mul_nonneg hb hc) (mul_nonneg hc hd),
    mul_nonneg (mul_nonneg ha hb) (mul_nonneg hc hc),
    mul_nonneg (mul_nonneg hb hb) (mul_nonneg hc hd)]

/-- C5: for all non-negative integer contingency counts, phi_coefficient is 0
    whenever a margin is 0, otherwise equals the textbook quotient, always lies
    in [-1, 1], and (being total) never raises on a degenerate table. -/
theorem c5_phi_guard_and_range (tp fn fp tn : Nat) :
    ((tp + fp = 0 ∨ tp + fn = 0 ∨ tn + fp = 0 ∨ tn + fn = 0) →
      phi_coefficient tp fn fp tn = 0)
    ∧ (0 < (tp + fp) * (tp + fn) * (tn + fp) * (tn + fn) →
      phi_coefficient tp fn fp tn
        = ((tp : Real) * (tn : Real) - (fp : Real) * (fn : Real))
            / Real.sqrt ((((tp + fp) * (tp + fn) * (tn + fp) * (tn + fn) : Nat)) : Real))
    ∧ (-1 ≤ phi_coefficient tp fn fp tn ∧ phi_coefficient tp fn fp tn ≤ 1) := by
  have hxeq : (((((tp : Int) + (fp : Int)) * ((tp : Int) + (fn : Int))
        * ((tn : Int) + (fp : Int)) * ((tn : Int) + (fn : Int))) : Int) : Real)
      = ((((tp + fp) * (tp + fn) * (tn + fp) * (tn + fn) : Nat)) : Real) := by
    push_cast
    ring
  have hzero : (tp + fp = 0 ∨ tp + fn = 0 ∨ tn + fp = 0 ∨ tn + fn = 0) →
      phi_coefficient tp fn fp tn = 0 := by
    intro h
    have hNz : ((tp + fp) * (tp + fn) * (tn + fp) * (tn + fn) : Nat) = 0 := by
      rcases h with h | h | h | h <;> simp [h]
    have hs : Real.sqrt (((((tp : Int) + (fp : Int)) * ((tp : Int) + (fn : Int))
          * ((tn : Int) + (fp : Int)) * ((tn : Int) + (fn : Int))) : Int) : Real) = 0 := by
      rw [hxeq, hNz]
      simp
    simp only [phi_coefficient]
    rw [if_pos hs]
  have hquot : 0 < (tp + fp) * (tp + fn) * (tn + fp) * (tn + fn) →
      phi_coefficient tp fn fp tn
        = ((tp : Real) * (tn : Real) - (fp : Real) * (fn : Real))
            / Real.sqrt ((((tp + fp) * (tp + fn) * (tn + fp) * (tn + fn) : Nat)) : Real) := by
    intro h
    have hxpos : (0 : Real) < ((((tp + fp) * (tp + fn) * (tn + fp) * (tn + fn) : Nat)) : Real) := by
      exact_mod_cast h
    have hsne : Real.sqrt ((((tp + fp) * (tp + fn) * (tn + fp) * (tn + fn) : Nat)) : Real) ≠ 0 :=
      ne_of_gt (Real.sqrt_pos.mpr hxpos)
    simp only [phi_coefficient, hxeq]
    rw [if_neg hsne]
    push_cast
    ring
  refine ⟨hzero, hquot, ?_⟩
  by_cases hN : ((tp + fp) * (tp + fn) * (tn + fp) * (tn + fn) : Nat) = 0
  · have hmargin : tp + fp = 0 ∨ tp + fn = 0 ∨ tn + fp = 0 ∨ tn + fn = 0 := by
      simp only [Nat.mul_eq_zero] at hN
      tauto
    rw [hzero hmargin]
    norm_num
  · have hNpos : 0 < ((tp + fp) * (tp + fn) * (tn + fp) * (tn + fn) : Nat) :=
      Nat.pos_of_ne_zero hN
    rw [hquot hNpos]
    have hx0 : (0 : Real) < ((((tp + fp) * (tp + fn) * (tn + fp) * (tn + fn) : Nat)) : Real) := by
      exact_mod_cast hNpos
    have hsq : ((tp : Real) * (tn : Real) - (fp : Real) * (fn : Real)) ^ 2
        ≤ ((((tp + fp) * (tp + fn) * (tn + fp) * (tn + fn) : Nat)) : Real) := by
      have hb := phi_sq_bound (tp : Real) (fn : Real) (fp : Real) (tn : Real)
        (Nat.cast_nonneg tp) (Nat.cast_nonneg fn) (Nat.cast_nonneg fp) (Nat.cast_nonneg tn)
      have hxe : ((((tp + fp) * (tp + fn) * (tn + fp) * (tn + fn) : Nat)) : Real)
          = ((tp : Real) + (fp : Real)) * ((tp : Real) + (fn : Real))
              * ((tn : Real) + (fp : Real)) * ((tn : Real) + (fn : Real)) := by
        push_cast
        ring
      rw [hxe]
      exact hb
    have hsx : 0 < Real.sqrt ((((tp + fp) * (tp + fn) * (tn + fp) * (tn + fn) : Nat)) : Real) :=
      Real.sqrt_pos.mpr hx0
    have habs : |(tp : Real) * (tn : Real) - (fp : Real) * (fn : Real)|
        ≤ Real.sqrt ((((tp + fp) * (tp + fn) * (tn + fp) * (tn + fn) : Nat)) : Real) := by
      rw [← Real.sqrt_sq_eq_abs]
      exact Real.sqrt_le_sqrt hsq
    have hdiv : |((tp : Real) * (tn : Real) - (fp : Real) * (fn : Real))
        / Real.sqrt ((((tp + fp) * (tp + fn) * (tn + fp) * (tn + fn) : Nat)) : Real)| ≤ 1 := by
      rw [abs_div, abs_of_pos hsx]
      exact (div_le_one hsx).mpr habs
    exact ⟨(abs_le.mp hdiv).1, (abs_le.mp hdiv).2⟩

/-- Witness for C5 at the degenerate table (0,0,1,1) and the table (1,1,1,1). -/
theorem c5_phi_guard_and_range_witness :
    phi_coefficient 0 0 1 1 = 0
    ∧ (-1 ≤ phi_coefficient 1 1 1 1 ∧ phi_coefficient 1 1 1 1 ≤ 1) :=
  ⟨(c5_phi_guard_and_range 0 0 1 1).1 (by decide),
    (c5_phi_guard_and_range 1 1 1 1).2.2⟩

/-- stepConversionList preserves the number of stages. -/
theorem length_stepConversionList (users : List Rat) :
    (stepConversionList users).length = users.length := by
  cases users with
  | nil => rfl
  | cons u rest =>
    simp only [stepConversionList, List.length_cons, List.length_zipWith]
    omega

/-- Entry i+1 of the step conversion column is users[i+1] / users[i]. -/
theorem getD_stepConversionList_succ (users : List Rat) (i : Nat) (h : i + 1 < users.length) :
    (stepConversionList users).getD (i + 1) 0 = users.getD (i + 1) 0 / users.getD i 0 := by
  cases users with
  | nil => simp at h
  | cons u rest =>
    have hi : i < rest.length := by
      simp only [List.length_cons] at h
      omega
    have hz : i + 1 < (stepConversionList (u :: rest)).length := by
      rw [length_stepConversionList]
      exact h
    show (1 :: List.zipWith (fun a b => a / b) rest (u :: rest)).getD (i + 1) 0 = _
    rw [List.getD_eq_getElem _ _ (by exact hz), List.getElem_cons_succ, List.getElem_zipWith,
      List.getD_eq_getElem _ _ h, List.getD_eq_getElem _ _ (show i < (u :: rest).length by
        simp only [List.length_cons]; omega), List.getElem_cons_succ]

/-- Telescoping: the product of the first i+1 step conversions is the overall
    conversion users[i] / users[0], given positive user counts. -/
theorem stepConversionList_take_prod (users : List Rat) (hpos : ∀ u ∈ users, 0 < u) :
    ∀ i, i < users.length →
      ((stepConversionList users).take (i + 1)).prod = users.getD i 0 / users.getD 0 0 := by
  intro i
  induction i with
  | zero =>
    intro h
    cases users with
    | nil => simp at h
    | cons u rest =>
      have hu : 0 < u := hpos u (by simp)
      show (List.take 1 (1 :: _)).prod = (u :: rest).getD 0 0 / (u :: rest).getD 0 0
      simp [div_self (ne_of_gt hu)]
  | succ i ih =>
    intro h
    have hi : i < users.length := by omega
    have hlen : i + 1 < (stepConversionList users).length := by
      rw [length_stepConversionList]
      exact h
    rw [List.prod_take_succ _ _ hlen, ih hi, ← List.getD_eq_getElem _ 0 hlen,
      getD_stepConversionList_succ users i h]
    have hmemi : users.getD i 0 ∈ users := by
      rw [List.getD_eq_getElem _ _ hi]
      exact List.getElem_mem hi
    have h1 : users.getD i 0 ≠ 0 := ne_of_gt (hpos _ hmemi)
    have hmem0 : users.getD 0 0 ∈ users := by
      rw [List.getD_eq_getElem _ _ (show 0 < users.length by omega)]
      exact List.getElem_mem _
    have h0 : users.getD 0 0 ≠ 0 := ne_of_gt (hpos _ hmem0)
    rw [div_mul_div_comm, mul_comm (users.getD 0 0) (users.getD i 0),
      mul_div_mul_left _ _ h1]

/-- C6: for positive stage counts, build_funnel_dataframe yields
    overall_conversion[i] = users[i]/users[0], step_conversion[0] = 1,
    step_conversion[i] = users[i]/users[i-1] for i > 0, step_drop[i] =
    1 - step_conversion[i], and overall_conversion[i] equals the product of
    step_conversion[0..i]. -/
theorem c6_funnel_conversions (steps : List FunnelStep)
    (hpos : ∀ st ∈ steps, 0 < st.users) :
    ∀ i, i < steps.length →
      ((build_funnel_dataframe steps).overall_conversion.getD i 0
          = (build_funnel_dataframe steps).users.getD i 0
              / (build_funnel_dataframe steps).users.getD 0 0)
      ∧ (i = 0 → (build_funnel_dataframe steps).step_conversion.getD i 0 = 1)
      ∧ (0 < i → (build_funnel_dataframe steps).step_conversion.getD i 0
          = (build_funnel_dataframe steps).users.getD i 0
              / (build_funnel_dataframe steps).users.getD (i - 1) 0)
      ∧ ((build_funnel_dataframe steps).step_drop.getD i 0
          = 1 - (build_funnel_dataframe steps).step_conversion.getD i 0)
      ∧ ((build_funnel_dataframe steps).overall_conversion.getD i 0
          = ((build_funnel_dataframe steps).step_conversion.take (i + 1)).prod) := by
  intro i hilt
  have husers : (build_funnel_dataframe steps).users = steps.map fun st => st.users := rfl
  have hlenu : (steps.map fun st => st.users).length = steps.length := by
    simp
  have hpos' : ∀ u ∈ steps.map fun st => st.users, 0 < u := by
    intro u hu
    obtain ⟨st, hst, rfl⟩ := List.mem_map.mp hu
    exact hpos st hst
  have hne : (steps.map fun st => st.users) ≠ [] := by
    intro hcon
    rw [hcon] at hlenu
    simp at hlenu
    omega
  have hheadD : (steps.map fun st => st.users).headD 0 = (steps.map fun st => st.users).getD 0 0 := by
    cases hmm : steps.map fun st => st.users with
    | nil => exact absurd hmm hne
    | cons a l => rfl
  have hoverall : (build_funnel_dataframe steps).overall_conversion.getD i 0
      = (steps.map fun st => st.users).getD i 0 / (steps.map fun st => st.users).getD 0 0 := by
    show ((steps.map fun st => st.users).map
        fun u => u / (steps.map fun st => st.users).headD 0).getD i 0 = _
    rw [List.getD_eq_getElem _ _ (by simpa using hilt), List.getElem_map,
      ← List.getD_eq_getElem _ 0 (by simpa using hilt), hheadD]
  have hstep0 : i = 0 → (build_funnel_dataframe steps).step_conversion.getD i 0 = 1 := by
    intro h0
    subst h0
    show (stepConversionList (steps.map fun st => st.users)).getD 0 0 = 1
    cases hmm : steps.map fun st => st.users with
    | nil => exact absurd hmm hne
    | cons a l => rfl
  have hstepSucc : 0 < i → (build_funnel_dataframe steps).step_conversion.getD i 0
      = (steps.map fun st => st.users).getD i 0 / (steps.map fun st => st.users).getD (i - 1) 0 := by
    intro h0
    obtain ⟨j, rfl⟩ : ∃ j, i = j + 1 := ⟨i - 1, by omega⟩
    show (stepConversionList (steps.map fun st => st.users)).getD (j + 1) 0 = _
    rw [getD_stepConversionList_succ _ j (by simpa using hilt)]
    simp
  have hdrop : (build_funnel_dataframe steps).step_drop.getD i 0
      = 1 - (build_funnel_dataframe steps).step_conversion.getD i 0 := by
    show ((stepConversionList (steps.map fun st => st.users)).map fun c => 1 - c).getD i 0 = _
    have hb : i < (stepConversionList (steps.map fun st => st.users)).length := by
      rw [length_stepConversionList]
      simpa using hilt
    rw [List.getD_eq_getElem _ _ (by simpa using hb), List.getElem_map,
      ← List.getD_eq_getElem _ 0 hb]
    rfl
  have hprod : (build_funnel_dataframe steps).overall_conversion.getD i 0
      = ((build_funnel_dataframe steps).step_conversion.take (i + 1)).prod := by
    rw [hoverall]
    exact (stepConversionList_take_prod (steps.map fun st => st.users) hpos' i
      (by simpa using hilt)).symm
  exact ⟨hoverall, hstep0, hstepSucc, hdrop, hprod⟩

/-- Witness for C6 at a two-stage funnel with counts 15000 and 9500. -/
theorem c6_funnel_conversions_witness :
    ((build_funnel_dataframe [⟨"Visited Landing Page", 15000⟩, ⟨"Started Sign Up", 9500⟩]).overall_conversion.getD 1 0
        = (build_funnel_dataframe [⟨"Visited Landing Page", 15000⟩, ⟨"Started Sign Up", 9500⟩]).users.getD 1 0
            / (build_funnel_dataframe [⟨"Visited Landing Page", 15000⟩, ⟨"Started Sign Up", 9500⟩]).users.getD 0 0)
    ∧ ((1 : Nat) = 0 → (build_funnel_dataframe [⟨"Visited Landing Page", 15000⟩, ⟨"Started Sign Up", 9500⟩]).step_conversion.getD 1 0 = 1)
    ∧ ((0 : Nat) < 1 → (build_funnel_dataframe [⟨"Visited Landing Page", 15000⟩, ⟨"Started Sign Up", 9500⟩]).step_conversion.getD 1 0
        = (build_funnel_dataframe [⟨"Visited Landing Page", 15000⟩, ⟨"Started Sign Up", 9500⟩]).users.getD 1 0
            / (build_funnel_dataframe [⟨"Visited Landing Page", 15000⟩, ⟨"Started Sign Up", 9500⟩]).users.getD 0 0)
    ∧ ((build_funnel_dataframe [⟨"Visited Landing Page", 15000⟩, ⟨"Started Sign Up", 9500⟩]).step_drop.getD 1 0
        = 1 - (build_funnel_dataframe [⟨"Visited Landing Page", 15000⟩, ⟨"Started Sign Up", 9500⟩]).step_conversion.getD 1 0)
    ∧ ((build_funnel_dataframe [⟨"Visited Landing Page", 15000⟩, ⟨"Started Sign Up", 9500⟩]).overall_conversion.getD 1 0
        = ((build_funnel_dataframe [⟨"Visited Landing Page", 15000⟩, ⟨"Started Sign Up", 9500⟩]).step_conversion.take 2).prod) := by
  have h := c6_funnel_conversions
    [⟨"Visited Landing Page", 15000⟩, ⟨"Started Sign Up", 9500⟩]
    (by decide) 1 (by decide)
  exact ⟨h.1, h.2.1, fun hh => h.2.2.1 hh, h.2.2.2.1, h.2.2.2.2⟩

/-- A successful first-match lookup returns an entry of the association list. -/
theorem lookupFirst_mem {β : Type} (key : Nat) (l : List (Nat × β)) (v : β)
    (h : lookupFirst key l = some v) : (key, v) ∈ l := by
  induction l with
  | nil => simp [lookupFirst] at h
  | cons p rest ih =>
    rw [lookupFirst] at h
    by_cases hp : p.1 = key
    · rw [if_pos hp] at h
      have hpv : p = (key, v) := by
        obtain ⟨p1, p2⟩ := p
        simp only at hp
        simp only [Option.some_inj] at h
        rw [hp, h]
      rw [← hpv]
      exact List.mem_cons_self p rest
    · rw [if_neg hp] at h
      exact List.mem_cons_of_mem _ (ih h)

/-- Lookup of a key absent from the association list fails. -/
theorem lookupFirst_eq_none {β : Type} (key : Nat) (l : List (Nat × β))
    (h : key ∉ l.map Prod.fst) : lookupFirst key l = none := by
  induction l with
  | nil => rfl
  | cons p rest ih =>
    rw [lookupFirst]
    have hp : p.1 ≠ key := by
      intro hc
      exact h (by simp [← hc])
    rw [if_neg hp]
    exact ih (fun hc => h (by simp; right; simpa using hc))

/-- Any joined usage row forces a non-empty Sessions table, hence a positive
    active user count: the unguarded per-feature division is reached only with
    a positive denominator. -/
theorem active_pos_of_mem_usage_with_users (sessions : List SessionRow)
    (usage : List UsageRow) (p : String × Nat)
    (hp : p ∈ usage_with_users sessions usage) : 0 < active_user_count sessions := by
  obtain ⟨e, _, heq⟩ := List.mem_filterMap.mp hp
  rw [Option.map_eq_some'] at heq
  obtain ⟨uid, huid, _⟩ := heq
  have hmem := lookupFirst_mem _ _ _ huid
  have hne : sessions.map (fun s => s.user_id) ≠ [] := by
    cases sessions with
    | nil => simp [session_users] at hmem
    | cons s rest => simp
  show 0 < (sessions.map fun s => s.user_id).dedup.length
  refine List.length_pos.mpr ?_
  rw [ne_eq, List.dedup_eq_nil]
  exact hne

/-- C1: every derived rate is numerator/denominator when its denominator is
    positive and 0 when it is zero: each per-feature adoption_rate row is only
    produced with a positive active_user_count (so the unguarded division is
    safe), overall_rate is guarded, and every retention_rate is guarded by the
    cohort size. -/
theorem c1_rate_division_guards (users : List UserRow) (sessions : List SessionRow)
    (usage : List UsageRow) :
    (∀ row ∈ (compute_feature_adoption sessions usage).adoption_table,
        0 < active_user_count sessions
        ∧ row.adoption_rate = (row.unique_users : Rat) / (active_user_count sessions : Rat))
    ∧ (active_user_count sessions = 0 →
        (compute_feature_adoption sessions usage).overall_rate = 0)
    ∧ (0 < active_user_count sessions →
        (compute_feature_adoption sessions usage).overall_rate
          = (overall_adopters sessions usage : Rat) / (active_user_count sessions : Rat))
    ∧ (∀ r ∈ (compute_retention users sessions).1,
        ((compute_retention users sessions).2 = 0 → r.retention_rate = 0)
        ∧ (0 < (compute_retention users sessions).2 →
            r.retention_rate
              = (r.retained_users : Rat) / ((compute_retention users sessions).2 : Rat))) := by
  refine ⟨?_, ?_, ?_, ?_⟩
  · intro row hrow
    simp only [compute_feature_adoption] at hrow
    obtain ⟨fc, hfc, hfceq⟩ := List.mem_map.mp hrow
    have hactive : 0 < active_user_count sessions := by
      simp only [feature_user_counts, List.mem_insertionSort, List.mem_map,
        List.mem_dedup] at hfc
      obtain ⟨f, ⟨pair, hpair, _⟩, _⟩ := hfc
      exact active_pos_of_mem_usage_with_users sessions usage pair hpair
    refine ⟨hactive, ?_⟩
    rw [← hfceq]
  · intro h
    simp only [compute_feature_adoption]
    rw [if_pos h]
  · intro h
    simp only [compute_feature_adoption]
    rw [if_neg (Nat.pos_iff_ne_zero.mp h)]
  · intro r hr
    have hr' : r ∈ retention_days.map (fun day =>
        let retained :=
          ((cohort_users users sessions).filter fun u =>
              decide ((Int.ofNat day) ∈ day_diffs_of users sessions u)).length
        ({ day := day
           retained_users := retained
           retention_rate := if (cohort_users users sessions).length = 0 then 0
             else (retained : Rat) / ((cohort_users users sessions).length : Rat) }
          : RetentionRow)) := hr
    obtain ⟨day, _, hre⟩ := List.mem_map.mp hr'
    constructor
    · intro hb
      have hb' : (cohort_users users sessions).length = 0 := hb
      rw [← hre]
      simp only
      rw [if_pos hb']
    · intro hb
      have hb' : ¬ (cohort_users users sessions).length = 0 := Nat.pos_iff_ne_zero.mp hb
      rw [← hre]
      simp only
      rw [if_neg hb']
      rfl

/-- Head of a non-empty list (via getD) is a member. -/
theorem getD_zero_mem {α : Type} (l : List α) (d : α) (h : l ≠ []) : l.getD 0 d ∈ l := by
  cases l with
  | nil => exact absurd rfl h
  | cons a t => exact List.mem_cons_self a t

/-- Witness for C1 at a one-session, one-event input with one user. -/
theorem c1_rate_division_guards_witness :
    (0 < active_user_count [⟨1, 10, 0, 0⟩]
      ∧ ((compute_feature_adoption [⟨1, 10, 0, 0⟩] [⟨1, "search", 0⟩]).adoption_table.getD 0
            ⟨"", 0, 0⟩).adoption_rate
          = ((((compute_feature_adoption [⟨1, 10, 0, 0⟩] [⟨1, "search", 0⟩]).adoption_table.getD 0
                ⟨"", 0, 0⟩).unique_users : Rat)
              / (active_user_count [⟨1, 10, 0, 0⟩] : Rat)))
    ∧ ((compute_feature_adoption [] []).overall_rate = 0)
    ∧ ((compute_retention [⟨10, 0⟩] [⟨1, 10, 1, 1⟩]).1.getD 0 ⟨0, 0, 0⟩).retention_rate
        = (((compute_retention [⟨10, 0⟩] [⟨1, 10, 1, 1⟩]).1.getD 0 ⟨0, 0, 0⟩).retained_users : Rat)
            / ((compute_retention [⟨10, 0⟩] [⟨1, 10, 1, 1⟩]).2 : Rat) := by
  have hne : (compute_feature_adoption [⟨1, 10, 0, 0⟩] [⟨1, "search", 0⟩]).adoption_table ≠ [] := by
    decide
  have hne2 : (compute_retention [⟨10, 0⟩] [⟨1, 10, 1, 1⟩]).1 ≠ [] := by decide
  refine ⟨?_, ?_, ?_⟩
  · exact (c1_rate_division_guards [] [⟨1, 10, 0, 0⟩] [⟨1, "search", 0⟩]).1 _
      (getD_zero_mem _ _ hne)
  · exact (c1_rate_division_guards [] [] []).2.1 (by decide)
  · exact ((c1_rate_division_guards [⟨10, 0⟩] [⟨1, 10, 1, 1⟩] []).2.2.2 _
      (getD_zero_mem _ _ hne2)).2 (by decide)

/-- With unique user_ids, the first-match lookup into users[[user_id,
    signup_date]] finds exactly the signup date of the matching Users row. -/
theorem lookupFirst_users_signup (users : List UserRow)
    (hnodup : (users.map fun u => u.user_id).Nodup) (key : Nat) (v : Int) :
    lookupFirst key (users_signup users) = some v
      ↔ ∃ u ∈ users, u.user_id = key ∧ u.signup_date = v := by
  induction users with
  | nil => simp [users_signup, lookupFirst]
  | cons u rest ih =>
    rw [List.map_cons, List.nodup_cons] at hnodup
    obtain ⟨hnotin, hnd⟩ := hnodup
    show lookupFirst key ((u.user_id, u.signup_date) :: users_signup rest) = some v ↔ _
    rw [lookupFirst]
    by_cases hk : u.user_id = key
    · rw [if_pos hk]
      simp only [Option.some_inj]
      constructor
      · intro hv
        exact ⟨u, List.mem_cons_self u rest, hk, hv⟩
      · rintro ⟨u', hu', hk', hv'⟩
        rcases List.mem_cons.mp hu' with rfl | hmem
        · exact hv'
        · exact absurd (List.mem_map.mpr ⟨u', hmem, hk'.trans hk.symm⟩) hnotin
    · rw [if_neg hk]
      rw [ih hnd]
      constructor
      · rintro ⟨u', hmem, hk', hv'⟩
        exact ⟨u', List.mem_cons_of_mem _ hmem, hk', hv'⟩
      · rintro ⟨u', hu', hk', hv'⟩
        rcases List.mem_cons.mp hu' with rfl | hmem
        · exact absurd hk' hk
        · exact ⟨u', hmem, hk', hv'⟩

/-- Membership in the joined, non-negative (user_id, day_diff) rows, stated on
    the raw tables. -/
theorem mem_retention_day_pairs (users : List UserRow) (sessions : List SessionRow)
    (hnodup : (users.map fun u => u.user_id).Nodup) (p : Nat × Int) :
    p ∈ retention_day_pairs users sessions
      ↔ (0 ≤ p.2 ∧ ∃ s ∈ sessions, ∃ u ∈ users, s.user_id = p.1 ∧ u.user_id = p.1
          ∧ s.start_day - u.signup_date = p.2) := by
  unfold retention_day_pairs
  simp only [List.mem_filter, List.mem_filterMap, Option.map_eq_some',
    decide_eq_true_eq]
  constructor
  · rintro ⟨⟨s, hs, sd, hsd, heq⟩, hge⟩
    obtain ⟨u, hu, hid, hsig⟩ := (lookupFirst_users_signup users hnodup s.user_id sd).mp hsd
    refine ⟨hge, s, hs, u, hu, ?_, ?_, ?_⟩
    · rw [← heq]
    · rw [← heq]
      exact hid
    · rw [← heq]
      rw [hsig]
  · rintro ⟨hge, s, hs, u, hu, hsid, huid, hdiff⟩
    refine ⟨⟨s, hs, u.signup_date, ?_, ?_⟩, hge⟩
    · exact (lookupFirst_users_signup users hnodup s.user_id u.signup_date).mpr
        ⟨u, hu, huid.trans hsid.symm, rfl⟩
    · obtain ⟨p1, p2⟩ := p
      simp only at hsid hdiff ⊢
      exact Prod.ext hsid hdiff

/-- A user belongs to the cohort with a given offset in its offset set exactly
    when the joined non-negative pair exists. -/
theorem mem_cohort_and_diff (users : List UserRow) (sessions : List SessionRow)
    (uid : Nat) (d : Int) :
    (uid ∈ cohort_users users sessions ∧ d ∈ day_diffs_of users sessions uid)
      ↔ (uid, d) ∈ retention_day_pairs users sessions := by
  constructor
  · rintro ⟨-, hd⟩
    unfold day_diffs_of at hd
    rw [List.mem_dedup, List.mem_map] at hd
    obtain ⟨pair, hp, hsnd⟩ := hd
    rw [List.mem_filter] at hp
    obtain ⟨hmem, hfst⟩ := hp
    have h1 : pair.1 = uid := by simpa using hfst
    have h2 : pair = (uid, d) := by
      obtain ⟨a, b⟩ := pair
      simp only at h1 hsnd
      rw [h1, hsnd]
    exact h2 ▸ hmem
  · intro hp
    constructor
    · unfold cohort_users
      rw [List.mem_dedup, List.mem_map]
      exact ⟨(uid, d), hp, rfl⟩
    · unfold day_diffs_of
      rw [List.mem_dedup, List.mem_map]
      exact ⟨(uid, d), List.mem_filter.mpr ⟨hp, by simp⟩, rfl⟩

/-- The per-day retained count over the grouped cohort equals the count of
    Users rows having a session at exactly that offset. -/
theorem retained_count (users : List UserRow) (sessions : List SessionRow)
    (hnodup : (users.map fun u => u.user_id).Nodup) (day : Nat) :
    ((cohort_users users sessions).filter fun u =>
        decide (Int.ofNat day ∈ day_diffs_of users sessions u)).length
      = (users.filter fun u => decide (∃ s ∈ sessions, s.user_id = u.user_id
          ∧ s.start_day - u.signup_date = Int.ofNat day)).length := by
  have hL : ((cohort_users users sessions).filter fun u =>
      decide (Int.ofNat day ∈ day_diffs_of users sessions u)).Nodup :=
    (List.nodup_dedup _).filter _
  have hsub : ((users.filter fun u => decide (∃ s ∈ sessions, s.user_id = u.user_id
      ∧ s.start_day - u.signup_date = Int.ofNat day)).map fun u => u.user_id).Sublist
      (users.map fun u => u.user_id) :=
    (List.filter_sublist users).map _
  have hR : ((users.filter fun u => decide (∃ s ∈ sessions, s.user_id = u.user_id
      ∧ s.start_day - u.signup_date = Int.ofNat day)).map fun u => u.user_id).Nodup :=
    hnodup.sublist hsub
  have hiff : ∀ a : Nat,
      (a ∈ (cohort_users users sessions).filter fun u =>
          decide (Int.ofNat day ∈ day_diffs_of users sessions u))
        ↔ a ∈ (users.filter fun u => decide (∃ s ∈ sessions, s.user_id = u.user_id
            ∧ s.start_day - u.signup_date = Int.ofNat day)).map fun u => u.user_id := by
    intro a
    rw [List.mem_filter]
    constructor
    · rintro ⟨hc, hd⟩
      have hd' : Int.ofNat day ∈ day_diffs_of users sessions a := by simpa using hd
      have hpair := (mem_cohort_and_diff users sessions a (Int.ofNat day)).mp ⟨hc, hd'⟩
      obtain ⟨-, s, hs, u, hu, hsid, huid, hdiff⟩ :=
        (mem_retention_day_pairs users sessions hnodup _).mp hpair
      refine List.mem_map.mpr ⟨u, List.mem_filter.mpr ⟨hu, ?_⟩, huid⟩
      simp only [decide_eq_true_eq]
      exact ⟨s, hs, hsid.trans huid.symm, hdiff⟩
    · intro hmem
      obtain ⟨u, hu, huid⟩ := List.mem_map.mp hmem
      rw [List.mem_filter] at hu
      obtain ⟨humem, hq⟩ := hu
      simp only [decide_eq_true_eq] at hq
      obtain ⟨s, hs, hsid, hdiff⟩ := hq
      have hpair : (a, Int.ofNat day) ∈ retention_day_pairs users sessions := by
        refine (mem_retention_day_pairs users sessions hnodup _).mpr
          ⟨by simp, s, hs, u, humem, ?_, ?_, ?_⟩
        · rw [hsid, huid]
        · rw [huid]
        · exact hdiff
      have := (mem_cohort_and_diff users sessions a (Int.ofNat day)).mpr hpair
      exact ⟨this.1, by simpa using this.2⟩
  have hperm := (List.perm_ext_iff_of_nodup hL hR).mpr hiff
  rw [hperm.length_eq, List.length_map]

/-- C4: each retention row counts users whose offset set contains exactly the
    probe day (membership, not a cumulative retained-by-day test); in the
    concrete scenario (signup day 0, sessions on days 0, 1, 7) the user is
    retained at days 1 and 7 but not at day 30. -/
theorem c4_exact_day_retention (users : List UserRow) (sessions : List SessionRow)
    (hnodup : (users.map fun u => u.user_id).Nodup) :
    (∀ r ∈ (compute_retention users sessions).1,
        r.day ∈ retention_days
        ∧ r.retained_users = (users.filter fun u => decide (∃ s ∈ sessions,
            s.user_id = u.user_id ∧ s.start_day - u.signup_date = Int.ofNat r.day)).length)
    ∧ ((compute_retention [⟨0, 0⟩] [⟨1, 0, 0, 0⟩, ⟨2, 0, 1, 1⟩, ⟨3, 0, 7, 7⟩]).1.map
          fun r => (r.day, r.retained_users)) = [(1, 1), (7, 1), (30, 0)]
    ∧ (compute_retention [⟨0, 0⟩] [⟨1, 0, 0, 0⟩, ⟨2, 0, 1, 1⟩, ⟨3, 0, 7, 7⟩]).2 = 1 := by
  refine ⟨?_, by decide, by decide⟩
  intro r hr
  obtain ⟨day, hday, hre⟩ := List.mem_map.mp hr
  constructor
  · rw [← hre]
    exact hday
  · rw [← hre]
    simp only
    exact retained_count users sessions hnodup day

/-- Witness for C4 at a one-user, one-session cohort. -/
theorem c4_exact_day_retention_witness :
    (((compute_retention [⟨5, 0⟩] [⟨1, 5, 1, 1⟩]).1.getD 0 ⟨0, 0, 0⟩).day ∈ retention_days
      ∧ ((compute_retention [⟨5, 0⟩] [⟨1, 5, 1, 1⟩]).1.getD 0 ⟨0, 0, 0⟩).retained_users
          = (([⟨5, 0⟩] : List UserRow).filter fun u => decide (∃ s ∈ ([⟨1, 5, 1, 1⟩] : List SessionRow),
              s.user_id = u.user_id ∧ s.start_day - u.signup_date
                = Int.ofNat ((compute_retention [⟨5, 0⟩] [⟨1, 5, 1, 1⟩]).1.getD 0
                    ⟨0, 0, 0⟩).day)).length)
    ∧ ((compute_retention [⟨0, 0⟩] [⟨1, 0, 0, 0⟩, ⟨2, 0, 1, 1⟩, ⟨3, 0, 7, 7⟩]).1.map
          fun r => (r.day, r.retained_users)) = [(1, 1), (7, 1), (30, 0)] := by
  have hne : (compute_retention [⟨5, 0⟩] [⟨1, 5, 1, 1⟩]).1 ≠ [] := by decide
  exact ⟨(c4_exact_day_retention [⟨5, 0⟩] [⟨1, 5, 1, 1⟩] (by decide)).1 _
      (getD_zero_mem _ _ hne),
    (c4_exact_day_retention [] [] (by decide)).2.1⟩

/-- C8: feature-usage events whose session_id matches no Sessions row are
    dropped by the joins, so appending such orphaned events changes neither
    compute_feature_adoption nor compute_feature_repeat_correlation (and no
    error is raised: both remain total). -/
theorem c8_orphan_events_ignored (users : List UserRow) (sessions : List SessionRow)
    (usage orphans : List UsageRow)
    (h : ∀ o ∈ orphans, o.session_id ∉ sessions.map fun s => s.session_id) :
    compute_feature_adoption sessions (usage ++ orphans)
        = compute_feature_adoption sessions usage
    ∧ compute_feature_repeat_correlation users sessions (usage ++ orphans)
        = compute_feature_repeat_correlation users sessions usage := by
  have hcore : usage_with_users sessions (usage ++ orphans)
      = usage_with_users sessions usage := by
    unfold usage_with_users
    rw [List.filterMap_append]
    have hnil : orphans.filterMap (fun e =>
        (lookupFirst e.session_id (session_users sessions)).map
          fun uid => (e.feature_name, uid)) = [] := by
      rw [List.filterMap_eq_nil_iff]
      intro o ho
      have hkeys : (session_users sessions).map Prod.fst
          = sessions.map fun s => s.session_id := by
        simp [session_users]
      have hnone : lookupFirst o.session_id (session_users sessions) = none := by
        apply lookupFirst_eq_none
        rw [hkeys]
        exact h o ho
      rw [hnone]
      rfl
    rw [hnil, List.append_nil]
  have hrow : correlation_row users sessions (usage ++ orphans)
      = correlation_row users sessions usage := by
    funext f
    simp only [correlation_row, contingency, users_used_of, correlation_pairs, hcore]
  constructor
  · simp only [compute_feature_adoption, feature_user_counts, overall_adopters, hcore]
  · simp only [compute_feature_repeat_correlation, correlation_pairs, hcore, hrow]

/-- Witness for C8: one orphaned event appended to a one-event table. -/
theorem c8_orphan_events_ignored_witness :
    compute_feature_adoption [⟨1, 10, 0, 0⟩] ([⟨1, "a", 0⟩] ++ [⟨99, "b", 0⟩])
        = compute_feature_adoption [⟨1, 10, 0, 0⟩] [⟨1, "a", 0⟩]
    ∧ compute_feature_repeat_correlation [⟨10, 0⟩] [⟨1, 10, 0, 0⟩] ([⟨1, "a", 0⟩] ++ [⟨99, "b", 0⟩])
        = compute_feature_repeat_correlation [⟨10, 0⟩] [⟨1, 10, 0, 0⟩] [⟨1, "a", 0⟩] :=
  c8_orphan_events_ignored [⟨10, 0⟩] [⟨1, 10, 0, 0⟩] [⟨1, "a", 0⟩] [⟨99, "b", 0⟩] (by decide)

/-- Sum of the binary repeat labels over listed users equals the count of
    repeat users among them. -/
theorem sum_repeat_labels (users : List UserRow) (sessions : List SessionRow)
    (l : List Nat) (hsub : ∀ u ∈ l, u ∈ users.map fun r => r.user_id) :
    (l.map (repeat_label users sessions)).sum
      = (l.filter fun u => decide (2 ≤ session_count sessions u)).length := by
  induction l with
  | nil => rfl
  | cons a t ih =>
    have ha := hsub a (List.mem_cons_self a t)
    have ht : ∀ u ∈ t, u ∈ users.map fun r => r.user_id :=
      fun u hu => hsub u (List.mem_cons_of_mem _ hu)
    rw [List.map_cons, List.sum_cons, List.filter_cons]
    by_cases hc : 2 ≤ session_count sessions a
    · have hl : repeat_label users sessions a = 1 := by
        unfold repeat_label
        rw [if_pos ⟨ha, hc⟩]
      rw [hl, ih ht, if_pos (by simp [hc])]
      simp only [List.length_cons]
      omega
    · have hl : repeat_label users sessions a = 0 := by
        unfold repeat_label
        rw [if_neg (fun hand => hc hand.2)]
      rw [hl, ih ht, if_neg (by simp [hc])]
      omega

/-- Every user in a feature's users_used set has a session row. -/
theorem mem_users_used_userid (sessions : List SessionRow) (usage : List UsageRow)
    (f : String) (u : Nat) (hu : u ∈ users_used_of sessions usage f) :
    ∃ s ∈ sessions, s.user_id = u := by
  unfold users_used_of at hu
  rw [List.mem_dedup, List.mem_map] at hu
  obtain ⟨pair, hp, hsnd⟩ := hu
  rw [List.mem_filter] at hp
  have hp1 : pair ∈ correlation_pairs sessions usage := hp.1
  unfold correlation_pairs at hp1
  rw [List.mem_dedup] at hp1
  obtain ⟨e, _, heq⟩ := List.mem_filterMap.mp hp1
  rw [Option.map_eq_some'] at heq
  obtain ⟨uid, huid, heq2⟩ := heq
  obtain ⟨s, hs, hse⟩ := List.mem_map.mp (lookupFirst_mem _ _ _ huid)
  refine ⟨s, hs, ?_⟩
  have h1 : s.user_id = uid := congrArg Prod.snd hse
  have h2 : pair.2 = uid := by rw [← heq2]
  rw [h1, ← h2, hsnd]

/-- A filtered count over Users rows restricted to a nodup id list equals the
    corresponding count over the id list. -/
theorem length_filter_users_eq (users : List UserRow)
    (hnodup : (users.map fun r => r.user_id).Nodup)
    (l : List Nat) (hl : l.Nodup) (hsub : ∀ u ∈ l, u ∈ users.map fun r => r.user_id)
    (p : Nat → Prop) [DecidablePred p] :
    (users.filter fun r => decide (p r.user_id ∧ r.user_id ∈ l)).length
      = (l.filter fun u => decide (p u)).length := by
  have hLsub : ((users.filter fun r => decide (p r.user_id ∧ r.user_id ∈ l)).map
      fun r => r.user_id).Sublist (users.map fun r => r.user_id) :=
    (List.filter_sublist users).map _
  have hLnd : ((users.filter fun r => decide (p r.user_id ∧ r.user_id ∈ l)).map
      fun r => r.user_id).Nodup := hnodup.sublist hLsub
  have hRnd : (l.filter fun u => decide (p u)).Nodup := hl.filter _
  have hiff : ∀ a : Nat,
      a ∈ ((users.filter fun r => decide (p r.user_id ∧ r.user_id ∈ l)).map
          fun r => r.user_id)
        ↔ a ∈ (l.filter fun u => decide (p u)) := by
    intro a
    rw [List.mem_map, List.mem_filter]
    constructor
    · rintro ⟨r, hr, huid⟩
      rw [List.mem_filter] at hr
      obtain ⟨-, hpr⟩ := hr
      simp only [decide_eq_true_eq] at hpr
      obtain ⟨hpa, hmem⟩ := hpr
      rw [huid] at hpa hmem
      exact ⟨hmem, by simpa using hpa⟩
    · rintro ⟨hal, hpa⟩
      obtain ⟨r, hr, huid⟩ := List.mem_map.mp (hsub a hal)
      refine ⟨r, List.mem_filter.mpr ⟨hr, ?_⟩, huid⟩
      simp only [decide_eq_true_eq]
      rw [huid]
      exact ⟨by simpa using hpa, hal⟩
  have hperm := (List.perm_ext_iff_of_nodup hLnd hRnd).mpr hiff
  rw [← List.length_map (users.filter fun r => decide (p r.user_id ∧ r.user_id ∈ l))
    (fun r => r.user_id)]
  exact hperm.length_eq

/-- Splitting a Prop-filtered count by a second predicate. -/
theorem length_filter_split {α : Type} (l : List α) (P Q : α → Prop)
    [DecidablePred P] [DecidablePred Q] :
    (l.filter fun a => decide (P a)).length
      = (l.filter fun a => decide (P a ∧ Q a)).length
        + (l.filter fun a => decide (P a ∧ ¬ Q a)).length := by
  induction l with
  | nil => rfl
  | cons a t ih =>
    rw [List.filter_cons, List.filter_cons, List.filter_cons]
    by_cases hP : P a
    · by_cases hQ : Q a
      · rw [if_pos (by simp [hP]), if_pos (by simp [hP, hQ]), if_neg (by simp [hP, hQ])]
        simp only [List.length_cons]
        omega
      · rw [if_pos (by simp [hP]), if_neg (by simp [hP, hQ]), if_pos (by simp [hP, hQ])]
        simp only [List.length_cons]
        omega
    · rw [if_neg (by simp [hP]), if_neg (by simp [hP]), if_neg (by simp [hP])]
      exact ih

/-- A Prop-filtered count and its complement sum to the list length. -/
theorem length_filter_prop_add {α : Type} (l : List α) (P : α → Prop) [DecidablePred P] :
    (l.filter fun a => decide (P a)).length
      + (l.filter fun a => decide (¬ P a)).length = l.length := by
  induction l with
  | nil => rfl
  | cons a t ih =>
    rw [List.filter_cons, List.filter_cons]
    by_cases hP : P a
    · rw [if_pos (by simp [hP]), if_neg (by simp [hP])]
      simp only [List.length_cons]
      omega
    · rw [if_neg (by simp [hP]), if_pos (by simp [hP])]
      simp only [List.length_cons]
      omega

/-- C7: under referential integrity (every session's user in Users, unique
    user_ids), the per-feature contingency counts are tp = repeat users who
    used the feature, fp = non-repeat users who used it, fn = repeat users who
    did not, tn = the remaining users; all four are non-negative and sum to the
    total user count; and in the 100-user scenario with repeat_total 40,
    30 users of the feature of whom 20 repeat, they are (20, 10, 20, 50). -/
theorem c7_contingency_counts (users : List UserRow) (sessions : List SessionRow)
    (usage : List UsageRow)
    (hnodup : (users.map fun r => r.user_id).Nodup)
    (hss : ∀ s ∈ sessions, s.user_id ∈ users.map fun r => r.user_id)
    (f : String) :
    ((contingency users sessions usage f).1
        = (((users_used_of sessions usage f).filter fun u =>
            decide (2 ≤ session_count sessions u)).length : Int))
    ∧ ((contingency users sessions usage f).2.1
        = (((users_used_of sessions usage f).filter fun u =>
            decide (¬ 2 ≤ session_count sessions u)).length : Int))
    ∧ ((contingency users sessions usage f).2.2.1
        = ((users.filter fun r => decide (2 ≤ session_count sessions r.user_id
            ∧ ¬ r.user_id ∈ users_used_of sessions usage f)).length : Int))
    ∧ ((contingency users sessions usage f).2.2.2
        = ((users.filter fun r => decide (¬ 2 ≤ session_count sessions r.user_id
            ∧ ¬ r.user_id ∈ users_used_of sessions usage f)).length : Int))
    ∧ (0 ≤ (contingency users sessions usage f).1
        ∧ 0 ≤ (contingency users sessions usage f).2.1
        ∧ 0 ≤ (contingency users sessions usage f).2.2.1
        ∧ 0 ≤ (contingency users sessions usage f).2.2.2)
    ∧ ((contingency users sessions usage f).1 + (contingency users sessions usage f).2.1
        + (contingency users sessions usage f).2.2.1
        + (contingency users sessions usage f).2.2.2
        = (user_count users : Int))
    ∧ (user_count users = 100 → repeat_total users sessions = 40
        → (users_used_of sessions usage f).length = 30
        → (contingency users sessions usage f).1 = 20
        → (contingency users sessions usage f).2.1 = 10
          ∧ (contingency users sessions usage f).2.2.1 = 20
          ∧ (contingency users sessions usage f).2.2.2 = 50) := by
  have htp : (contingency users sessions usage f).1
      = ((((users_used_of sessions usage f).map (repeat_label users sessions)).sum : Nat) : Int) :=
    rfl
  have hfp : (contingency users sessions usage f).2.1
      = (((users_used_of sessions usage f).length : Nat) : Int)
        - (contingency users sessions usage f).1 := rfl
  have hfn : (contingency users sessions usage f).2.2.1
      = ((repeat_total users sessions : Nat) : Int) - (contingency users sessions usage f).1 :=
    rfl
  have htn : (contingency users sessions usage f).2.2.2
      = ((user_count users : Nat) : Int)
        - ((contingency users sessions usage f).1 + (contingency users sessions usage f).2.1
          + (contingency users sessions usage f).2.2.1) := rfl
  have hsubused : ∀ u ∈ users_used_of sessions usage f, u ∈ users.map fun r => r.user_id := by
    intro u hu
    obtain ⟨s, hs, hsu⟩ := mem_users_used_userid sessions usage f u hu
    have := hss s hs
    rwa [hsu] at this
  have htpN : ((users_used_of sessions usage f).map (repeat_label users sessions)).sum
      = ((users_used_of sessions usage f).filter fun u =>
          decide (2 ≤ session_count sessions u)).length :=
    sum_repeat_labels users sessions _ hsubused
  have hused_split : (((users_used_of sessions usage f).filter fun u =>
        decide (2 ≤ session_count sessions u)).length)
      + (((users_used_of sessions usage f).filter fun u =>
        decide (¬ 2 ≤ session_count sessions u)).length)
      = (users_used_of sessions usage f).length :=
    length_filter_prop_add (users_used_of sessions usage f)
      (fun u => 2 ≤ session_count sessions u)
  have hrt : repeat_total users sessions
      = (users.filter fun r => decide (2 ≤ session_count sessions r.user_id)).length := rfl
  have huc : user_count users = users.length := rfl
  have husers_P_split : ((users.filter fun r =>
        decide (2 ≤ session_count sessions r.user_id)).length)
      = ((users.filter fun r => decide (2 ≤ session_count sessions r.user_id
          ∧ r.user_id ∈ users_used_of sessions usage f)).length)
        + ((users.filter fun r => decide (2 ≤ session_count sessions r.user_id
          ∧ ¬ r.user_id ∈ users_used_of sessions usage f)).length) :=
    length_filter_split users (fun r => 2 ≤ session_count sessions r.user_id)
      (fun r => r.user_id ∈ users_used_of sessions usage f)
  have husers_nP_split : ((users.filter fun r =>
        decide (¬ 2 ≤ session_count sessions r.user_id)).length)
      = ((users.filter fun r => decide (¬ 2 ≤ session_count sessions r.user_id
          ∧ r.user_id ∈ users_used_of sessions usage f)).length)
        + ((users.filter fun r => decide (¬ 2 ≤ session_count sessions r.user_id
          ∧ ¬ r.user_id ∈ users_used_of sessions usage f)).length) :=
    length_filter_split users (fun r => ¬ 2 ≤ session_count sessions r.user_id)
      (fun r => r.user_id ∈ users_used_of sessions usage f)
  have husers_all_split : ((users.filter fun r =>
        decide (2 ≤ session_count sessions r.user_id)).length)
      + ((users.filter fun r => decide (¬ 2 ≤ session_count sessions r.user_id)).length)
      = users.length :=
    length_filter_prop_add users (fun r => 2 ≤ session_count sessions r.user_id)
  have hA1 : ((users.filter fun r => decide (2 ≤ session_count sessions r.user_id
        ∧ r.user_id ∈ users_used_of sessions usage f)).length)
      = (((users_used_of sessions usage f).filter fun u =>
          decide (2 ≤ session_count sessions u)).length) :=
    length_filter_users_eq users hnodup (users_used_of sessions usage f)
      (List.nodup_dedup _) hsubused (fun u => 2 ≤ session_count sessions u)
  have hB1 : ((users.filter fun r => decide (¬ 2 ≤ session_count sessions r.user_id
        ∧ r.user_id ∈ users_used_of sessions usage f)).length)
      = (((users_used_of sessions usage f).filter fun u =>
          decide (¬ 2 ≤ session_count sessions u)).length) :=
    length_filter_users_eq users hnodup (users_used_of sessions usage f)
      (List.nodup_dedup _) hsubused (fun u => ¬ 2 ≤ session_count sessions u)
  refine ⟨by omega, by omega, by omega, by omega, ⟨by omega, by omega, by omega, by omega⟩,
    by omega, fun h1 h2 h3 h4 => ⟨by omega, by omega, by omega⟩⟩

/-- Witness for C7 on three users where user 0 repeats and users 0, 1 used
    feature a. -/
theorem c7_contingency_counts_witness :
    ((contingency [⟨0, 0⟩, ⟨1, 0⟩, ⟨2, 0⟩] [⟨1, 0, 0, 0⟩, ⟨2, 0, 1, 1⟩, ⟨3, 1, 0, 0⟩]
        [⟨1, "a", 0⟩, ⟨3, "a", 0⟩] "a").1
      = (((users_used_of [⟨1, 0, 0, 0⟩, ⟨2, 0, 1, 1⟩, ⟨3, 1, 0, 0⟩] [⟨1, "a", 0⟩, ⟨3, "a", 0⟩]
            "a").filter fun u =>
          decide (2 ≤ session_count [⟨1, 0, 0, 0⟩, ⟨2, 0, 1, 1⟩, ⟨3, 1, 0, 0⟩] u)).length : Int))
    ∧ ((contingency [⟨0, 0⟩, ⟨1, 0⟩, ⟨2, 0⟩] [⟨1, 0, 0, 0⟩, ⟨2, 0, 1, 1⟩, ⟨3, 1, 0, 0⟩]
        [⟨1, "a", 0⟩, ⟨3, "a", 0⟩] "a").1
      + (contingency [⟨0, 0⟩, ⟨1, 0⟩, ⟨2, 0⟩] [⟨1, 0, 0, 0⟩, ⟨2, 0, 1, 1⟩, ⟨3, 1, 0, 0⟩]
        [⟨1, "a", 0⟩, ⟨3, "a", 0⟩] "a").2.1
      + (contingency [⟨0, 0⟩, ⟨1, 0⟩, ⟨2, 0⟩] [⟨1, 0, 0, 0⟩, ⟨2, 0, 1, 1⟩, ⟨3, 1, 0, 0⟩]
        [⟨1, "a", 0⟩, ⟨3, "a", 0⟩] "a").2.2.1
      + (contingency [⟨0, 0⟩, ⟨1, 0⟩, ⟨2, 0⟩] [⟨1, 0, 0, 0⟩, ⟨2, 0, 1, 1⟩, ⟨3, 1, 0, 0⟩]
        [⟨1, "a", 0⟩, ⟨3, "a", 0⟩] "a").2.2.2
      = (user_count [⟨0, 0⟩, ⟨1, 0⟩, ⟨2, 0⟩] : Int)) := by
  have h := c7_contingency_counts [⟨0, 0⟩, ⟨1, 0⟩, ⟨2, 0⟩]
    [⟨1, 0, 0, 0⟩, ⟨2, 0, 1, 1⟩, ⟨3, 1, 0, 0⟩] [⟨1, "a", 0⟩, ⟨3, "a", 0⟩]
    (by decide) (by decide) "a"
  exact ⟨h.1, h.2.2.2.2.2.1⟩

end Metrics
